import Mathlib

/-!
# Verification of `BookList` (src/book_list.cpp)

A shallow embedding of the `BookList` class: an ordered collection kept
simultaneously in four containers — a fixed-capacity array (`books_array_`
plus the logical counter `books_array_size_`), a vector (`books_vector_`),
a doubly linked list (`books_dl_list_`) and a singly linked list
(`books_sl_list_`).

Modelling decisions:
* The element type `Book` (declared in `book.hpp`, which only its callers
  ship here) is treated as the spec's opaque `Item` contract: a type with
  decidable equality and a total order.  We model it as a type parameter
  `α` with `[DecidableEq α]` / `[LinearOrder α]`.
* The fixed `std::array` buffer is a `List α` whose length is the capacity
  `C`; slots at indices `≥ books_array_size_` are garbage that the code
  never reads through the consistent prefix.
* C++ member functions that mutate `*this` and may throw are embedded as
  functions returning `BLResult α ω`: the `err` constructor carries the
  state of the object at the moment the exception is thrown, so atomic
  failure ("all four containers unchanged") is expressible.
* Read-only members (`size`, `find`, `compare`) return `Except BLError ω`.
* Stream I/O is modelled at token level: `operator<<` emits the element
  count followed by the books of the singly linked list in order, and
  `operator>>` consumes a count and a list of decoded books.  The textual
  per-element encode/decode and the fixed-width framing characters belong
  to the external `Book` contract.
-/

/-- The exceptions thrown by `BookList` member functions. -/
inductive BLError : Type where
  | invalidOffset : BLError
  | capacityExceeded : BLError
  | invalidInternalState : BLError
deriving DecidableEq, Repr

/-- The `BookList::Position` enumeration. -/
inductive BLPosition : Type where
  | TOP : BLPosition
  | BOTTOM : BLPosition
deriving DecidableEq, Repr

/-- The state of a `BookList` object: the four containers plus the logical
length counter of the fixed-capacity array.  `books_array_` is the whole
fixed buffer; its length is the capacity `C` of the `std::array`. -/
structure BookList (α : Type) : Type where
  books_array_ : List α
  books_array_size_ : Nat
  books_vector_ : List α
  books_dl_list_ : List α
  books_sl_list_ : List α
deriving DecidableEq, Repr

/-- Result of a mutating member function: `ok` carries the returned value
and the final state of `*this`; `err` carries the thrown exception and the
state of `*this` at the throw point. -/
inductive BLResult (α : Type) (ω : Type) : Type where
  | ok : ω → BookList α → BLResult α ω
  | err : BLError → BookList α → BLResult α ω
deriving DecidableEq, Repr

namespace BookList

variable {α : Type}

/-- `BookList::books_sl_list_size`: the singly linked list has no cached
size; `std::distance(begin, end)` walks it and counts the elements. -/
def books_sl_list_size (L : BookList α) : Nat :=
  L.books_sl_list_.length

/-- `BookList::containers_are_consistent`: all four containers have equal
length, and the elements at each position agree.  The element loop of the
source walks the first `books_vector_.size()` positions of every container
comparing each against the array element, which (given the equal sizes) is
the same as comparing the `books_vector_.size()`-element prefix of the
array buffer with each of the three other containers. -/
def containers_are_consistent [DecidableEq α] (L : BookList α) : Bool :=
  decide (L.books_array_size_ = L.books_vector_.length) &&
  decide (L.books_array_size_ = L.books_dl_list_.length) &&
  decide (L.books_array_size_ = L.books_sl_list_size) &&
  decide (L.books_array_.take L.books_vector_.length = L.books_vector_) &&
  decide (L.books_array_.take L.books_vector_.length = L.books_dl_list_) &&
  decide (L.books_array_.take L.books_vector_.length = L.books_sl_list_)

/-- `BookList::size`: checks the consistency invariant (throwing
`InvalidInternalStateException` on failure) and returns the vector's
size. -/
def size [DecidableEq α] (L : BookList α) : Except BLError Nat :=
  if L.containers_are_consistent then .ok L.books_vector_.length
  else .error .invalidInternalState

/-- The `std::find` + iterator-difference loop of `BookList::find`: the
zero-based index of the first element equal to `book`, or the length of the
list when no element is equal. -/
def findIndex [DecidableEq α] : List α → α → Nat
  | [], _ => 0
  | x :: xs, book => if x = book then 0 else findIndex xs book + 1

/-- `BookList::find`: checks the consistency invariant, then returns the
zero-based position of `book` in the vector, or `size()` when absent. -/
def find [DecidableEq α] (L : BookList α) (book : α) : Except BLError Nat :=
  if L.containers_are_consistent then .ok (findIndex L.books_vector_ book)
  else .error .invalidInternalState

/-- Insertion before position `offset` in a growable sequence container:
`std::vector::insert`, `std::list::insert` at the iterator
`std::next(begin(), offset)`, and `std::forward_list::insert_after` at
`std::next(before_begin(), offset)` all place the new element at zero-based
position `offset`. -/
def listInsertAt (xs : List α) (offset : Nat) (book : α) : List α :=
  xs.take offset ++ book :: xs.drop offset

/-- Erasure at position `offset` in a growable sequence container:
`std::vector::erase` / `std::list::erase` at `std::next(begin(), offset)`,
and `std::forward_list::erase_after` at
`std::next(before_begin(), offset)`. -/
def listRemoveAt (xs : List α) (offset : Nat) : List α :=
  xs.take offset ++ xs.drop (offset + 1)

/-- The manual array insertion of `BookList::insert`: for `i` from `sz`
down to `offset + 1` do `a[i] := a[i-1]`, then `a[offset] := book`.  Slots
at indices `> sz` are untouched.  The result (for `offset ≤ sz < C`) is:
the prefix below `offset`, then `book`, then the old elements
`a[offset..sz-1]` shifted up one slot, then the untouched tail. -/
def arrayInsertAt (buf : List α) (sz offset : Nat) (book : α) : List α :=
  buf.take offset ++ book :: (buf.drop offset).take (sz - offset) ++
    buf.drop (sz + 1)

/-- The `std::move(begin+offset+1, end, begin+offset)` of
`BookList::remove`: every slot from `offset + 1` to the end of the buffer
shifts down one position; the final slot is left in a moved-from state,
which we model as retaining its old value (no claim observes it, because
it lies beyond the logical length). -/
def arrayRemoveAt (buf : List α) (offset : Nat) : List α :=
  buf.take offset ++ buf.drop (offset + 1) ++ buf.drop (buf.length - 1)

/-- `BookList::insert(book, offset_from_top)`.  Order of events, as in the
source: validate the offset against `size()` (which itself checks the
invariant), silently return on a duplicate (`find(book) != size()`), check
the fixed array's capacity, then mutate the array, the vector, the singly
linked list and the doubly linked list, and finally re-check the
invariant. -/
def insert [DecidableEq α] (L : BookList α) (book : α) (offset : Nat) :
    BLResult α Unit :=
  match L.size with
  | .error e => .err e L
  | .ok sz =>
    if offset > sz then .err .invalidOffset L
    else
      match L.find book with
      | .error e => .err e L
      | .ok idx =>
        if idx ≠ sz then .ok () L
        else if L.books_array_.length ≤ L.books_array_size_ then
          .err .capacityExceeded L
        else
          let L4 : BookList α :=
            { books_array_ :=
                arrayInsertAt L.books_array_ L.books_array_size_ offset book
              books_array_size_ := L.books_array_size_ + 1
              books_vector_ := listInsertAt L.books_vector_ offset book
              books_dl_list_ := listInsertAt L.books_dl_list_ offset book
              books_sl_list_ := listInsertAt L.books_sl_list_ offset book }
          if L4.containers_are_consistent then .ok () L4
          else .err .invalidInternalState L4

/-- `BookList::insert(book, position)`: TOP resolves to offset `0`, BOTTOM
to offset `size()`. -/
def insertPos [DecidableEq α] (L : BookList α) (book : α)
    (position : BLPosition) : BLResult α Unit :=
  match position with
  | .TOP => L.insert book 0
  | .BOTTOM =>
    match L.size with
    | .error e => .err e L
    | .ok sz => L.insert book sz

/-- `BookList::remove(offset_from_top)`: a silent no-op when
`offset ≥ size()`; otherwise removes the element at `offset` from all four
containers and re-checks the invariant. -/
def remove [DecidableEq α] (L : BookList α) (offset : Nat) :
    BLResult α Unit :=
  match L.size with
  | .error e => .err e L
  | .ok sz =>
    if offset ≥ sz then .ok () L
    else
      let L4 : BookList α :=
        { books_array_ := arrayRemoveAt L.books_array_ offset
          books_array_size_ := L.books_array_size_ - 1
          books_vector_ := listRemoveAt L.books_vector_ offset
          books_dl_list_ := listRemoveAt L.books_dl_list_ offset
          books_sl_list_ := listRemoveAt L.books_sl_list_ offset }
      if L4.containers_are_consistent then .ok () L4
      else .err .invalidInternalState L4

/-- `BookList::remove(book)`: `remove(find(book))`. -/
def removeBook [DecidableEq α] (L : BookList α) (book : α) :
    BLResult α Unit :=
  match L.find book with
  | .error e => .err e L
  | .ok idx => L.remove idx

/-- `BookList::move_to_top(book)`: when `find(book) != size()`, remove the
book and re-insert it at offset `0`; either way, re-check the invariant at
the end. -/
def move_to_top [DecidableEq α] (L : BookList α) (book : α) :
    BLResult α Unit :=
  match L.find book with
  | .error e => .err e L
  | .ok idx =>
    match L.size with
    | .error e => .err e L
    | .ok sz =>
      if idx ≠ sz then
        match L.removeBook book with
        | .err e L' => .err e L'
        | .ok _ L1 =>
          match L1.insert book 0 with
          | .err e L' => .err e L'
          | .ok _ L2 =>
            if L2.containers_are_consistent then .ok () L2
            else .err .invalidInternalState L2
      else
        if L.containers_are_consistent then .ok () L
        else .err .invalidInternalState L

/-- The loop of `BookList::operator+=`: insert each element of the given
list at the BOTTOM, in order. -/
def concatLoop [DecidableEq α] : BookList α → List α → BLResult α Unit
  | L, [] => .ok () L
  | L, book :: rest =>
    match L.insertPos book .BOTTOM with
    | .err e L' => .err e L'
    | .ok _ L' => concatLoop L' rest

/-- `BookList::operator+=(const BookList&)`: walk the right-hand side's
vector, inserting each book at the BOTTOM, then re-check the invariant. -/
def opPlusEq [DecidableEq α] (L rhs : BookList α) : BLResult α Unit :=
  match concatLoop L rhs.books_vector_ with
  | .err e L' => .err e L'
  | .ok _ L' =>
    if L'.containers_are_consistent then .ok () L'
    else .err .invalidInternalState L'

/-- `BookList::swap`: exchanges all four containers and the array length
counter between the two objects.  (The `this == &rhs` early return of the
source is identity-based and has no effect on values.) -/
def swap (L rhs : BookList α) : BookList α × BookList α :=
  (⟨rhs.books_array_, rhs.books_array_size_, rhs.books_vector_,
     rhs.books_dl_list_, rhs.books_sl_list_⟩,
   ⟨L.books_array_, L.books_array_size_, L.books_vector_,
     L.books_dl_list_, L.books_sl_list_⟩)

/-- `operator<<` at token level: after the consistency check it writes
`size()` and then every book of the singly linked list in order.
The per-line index numbers and separators are textual framing around each
book's own encoded form (the external `Book` contract) and carry no data
beyond the position, so the emitted payload is the count and the book
sequence. -/
def serialize [DecidableEq α] (L : BookList α) :
    Except BLError (Nat × List α) :=
  if L.containers_are_consistent then
    .ok (L.books_vector_.length, L.books_sl_list_)
  else .error .invalidInternalState

/-- Outcome of `operator>>`: `done` carries the final state and the books
left unread in the stream; `fault` an exception with the state at the
throw; `exhausted` marks the loop demanding another decoded book after the
stream has run dry — from there the C++ loop keeps extracting from a
failed stream, which is outside the `Book` decode contract and never
yields further well-formed books. -/
inductive ParseOutcome (α : Type) : Type where
  | done : BookList α → List α → ParseOutcome α
  | fault : BLError → BookList α → ParseOutcome α
  | exhausted : BookList α → ParseOutcome α
deriving DecidableEq, Repr

/-- The `while (count != book_list.books_sl_list_size())` loop of
`operator>>`: while the singly linked list's length differs from the
declared count, decode the next book and insert it at the BOTTOM. -/
def parseLoop [DecidableEq α] :
    BookList α → Nat → List α → ParseOutcome α
  | L, count, [] =>
    if count = L.books_sl_list_size then .done L [] else .exhausted L
  | L, count, book :: rest =>
    if count = L.books_sl_list_size then .done L (book :: rest)
    else
      match L.insertPos book .BOTTOM with
      | .err e L' => .fault e L'
      | .ok _ L' => parseLoop L' count rest

/-- `operator>>` at token level: check the consistency invariant, read the
declared count, then run the insertion loop over the decoded books. -/
def parse [DecidableEq α] (L : BookList α) (count : Nat)
    (items : List α) : ParseOutcome α :=
  if L.containers_are_consistent then parseLoop L count items
  else .fault .invalidInternalState L

/-- The element loop of `BookList::compare`: walk the two vectors in
lockstep; return `-1` at the first position where this list's book is less
than the other's, `1` at the first position where it is greater, and `0`
when the walk over this list's vector finishes without a difference.  (The
source reaches this loop only with equal sizes, so the other iterator
never runs out first.) -/
def compareLoop [LinearOrder α] : List α → List α → Int
  | [], _ => 0
  | _ :: _, [] => 0
  | x :: xs, y :: ys =>
    if x < y then -1
    else if y < x then 1
    else compareLoop xs ys

/-- `BookList::compare`: after checking both objects' invariants, return
`-1` when this list is shorter, `1` when longer, and otherwise the result
of the pairwise element walk. -/
def compare [DecidableEq α] [LinearOrder α] (L other : BookList α) :
    Except BLError Int :=
  if L.containers_are_consistent && other.containers_are_consistent then
    .ok
      (if L.books_vector_.length < other.books_vector_.length then -1
       else if other.books_vector_.length < L.books_vector_.length then 1
       else compareLoop L.books_vector_ other.books_vector_)
  else .error .invalidInternalState

/-- `operator==`: `lhs.compare(rhs) == 0`. -/
def eqRel [DecidableEq α] [LinearOrder α] (lhs rhs : BookList α) :
    Except BLError Bool :=
  match lhs.compare rhs with
  | .error e => .error e
  | .ok c => .ok (decide (c = 0))

/-- `operator!=`: `lhs.compare(rhs) != 0`. -/
def neRel [DecidableEq α] [LinearOrder α] (lhs rhs : BookList α) :
    Except BLError Bool :=
  match lhs.compare rhs with
  | .error e => .error e
  | .ok c => .ok (decide (c ≠ 0))

/-- `operator<`: `lhs.compare(rhs) < 0`. -/
def ltRel [DecidableEq α] [LinearOrder α] (lhs rhs : BookList α) :
    Except BLError Bool :=
  match lhs.compare rhs with
  | .error e => .error e
  | .ok c => .ok (decide (c < 0))

/-- `operator<=`: `lhs.compare(rhs) <= 0`. -/
def leRel [DecidableEq α] [LinearOrder α] (lhs rhs : BookList α) :
    Except BLError Bool :=
  match lhs.compare rhs with
  | .error e => .error e
  | .ok c => .ok (decide (c ≤ 0))

/-- `operator>`: `lhs.compare(rhs) > 0`. -/
def gtRel [DecidableEq α] [LinearOrder α] (lhs rhs : BookList α) :
    Except BLError Bool :=
  match lhs.compare rhs with
  | .error e => .error e
  | .ok c => .ok (decide (0 < c))

/-- `operator>=`: `lhs.compare(rhs) >= 0`. -/
def geRel [DecidableEq α] [LinearOrder α] (lhs rhs : BookList α) :
    Except BLError Bool :=
  match lhs.compare rhs with
  | .error e => .error e
  | .ok c => .ok (decide (0 ≤ c))

/-- A sequence of `insert(book, offset)` calls, applied left to right. -/
def insertSeq [DecidableEq α] :
    BookList α → List (α × Nat) → BLResult α Unit
  | L, [] => .ok () L
  | L, (book, offset) :: rest =>
    match L.insert book offset with
    | .err e L' => .err e L'
    | .ok _ L' => insertSeq L' rest

/-- The `BookList` states reachable from a default-constructed object
(empty logical content over an arbitrary fixed buffer) via the public
operations. -/
inductive Reachable [DecidableEq α] : BookList α → Prop
  | empty (buf : List α) : Reachable ⟨buf, 0, [], [], []⟩
  | insertOff {L L' : BookList α} {book : α} {offset : Nat} :
      Reachable L → L.insert book offset = .ok () L' → Reachable L'
  | insertAtPos {L L' : BookList α} {book : α} {p : BLPosition} :
      Reachable L → L.insertPos book p = .ok () L' → Reachable L'
  | removeOff {L L' : BookList α} {offset : Nat} :
      Reachable L → L.remove offset = .ok () L' → Reachable L'
  | removeBk {L L' : BookList α} {book : α} :
      Reachable L → L.removeBook book = .ok () L' → Reachable L'
  | moveToTop {L L' : BookList α} {book : α} :
      Reachable L → L.move_to_top book = .ok () L' → Reachable L'
  | concat {L M L' : BookList α} :
      Reachable L → Reachable M → L.opPlusEq M = .ok () L' → Reachable L'
  | swapFst {L M : BookList α} :
      Reachable L → Reachable M → Reachable (BookList.swap L M).1
  | swapSnd {L M : BookList α} :
      Reachable L → Reachable M → Reachable (BookList.swap L M).2
  | parseOk {L L' : BookList α} {count : Nat} {items rest : List α} :
      Reachable L → L.parse count items = .done L' rest → Reachable L'

end BookList

/-! ## Helper lemmas -/

namespace BookList

variable {α : Type}

theorem containers_are_consistent_iff [DecidableEq α] (L : BookList α) :
    L.containers_are_consistent = true ↔
      (L.books_array_size_ = L.books_vector_.length ∧
       L.books_dl_list_ = L.books_vector_ ∧
       L.books_sl_list_ = L.books_vector_ ∧
       L.books_array_.take L.books_vector_.length = L.books_vector_) := by
  unfold containers_are_consistent books_sl_list_size
  simp only [Bool.and_eq_true, decide_eq_true_eq, and_assoc]
  constructor
  · rintro ⟨h1, h2, h3, h4, h5, h6⟩
    exact ⟨h1, by rw [← h5, h4], by rw [← h6, h4], h4⟩
  · rintro ⟨h1, h2, h3, h4⟩
    exact ⟨h1, by rw [h2]; exact h1, by rw [h3]; exact h1, h4,
      by rw [h2]; exact h4, by rw [h3]; exact h4⟩

theorem length_le_of_consistent [DecidableEq α] {L : BookList α}
    (h : L.containers_are_consistent = true) :
    L.books_vector_.length ≤ L.books_array_.length := by
  obtain ⟨-, -, -, h4⟩ := (containers_are_consistent_iff L).mp h
  have := congrArg List.length h4
  simp only [List.length_take] at this
  omega

theorem findIndex_le_length [DecidableEq α] (xs : List α) (b : α) :
    findIndex xs b ≤ xs.length := by
  induction xs with
  | nil => simp [findIndex]
  | cons x xs ih =>
    simp only [findIndex, List.length_cons]
    split <;> omega

theorem findIndex_eq_length_iff [DecidableEq α] (xs : List α) (b : α) :
    findIndex xs b = xs.length ↔ b ∉ xs := by
  induction xs with
  | nil => simp [findIndex]
  | cons x xs ih =>
    simp only [findIndex, List.length_cons, List.mem_cons]
    split
    · next h =>
      constructor
      · intro h0; exact absurd h0 (by omega)
      · intro hn; exact absurd (Or.inl h.symm) hn
    · next h =>
      have hbx : ¬b = x := fun hb => h hb.symm
      rw [show (findIndex xs b + 1 = xs.length + 1) ↔
            (findIndex xs b = xs.length) from by omega, ih]
      simp [hbx]

theorem findIndex_lt_length_iff [DecidableEq α] (xs : List α) (b : α) :
    findIndex xs b < xs.length ↔ b ∈ xs := by
  have h1 := findIndex_le_length xs b
  have h2 := findIndex_eq_length_iff xs b
  constructor
  · intro h
    by_contra hm
    exact absurd (h2.mpr hm) (by omega)
  · intro hm
    have hne : findIndex xs b ≠ xs.length := fun he => (h2.mp he) hm
    omega

end BookList

namespace BookList

variable {α : Type}

theorem listInsertAt_zero (xs : List α) (b : α) :
    listInsertAt xs 0 b = b :: xs := by
  simp [listInsertAt]

theorem listInsertAt_succ_cons (x : α) (xs : List α) (o : Nat) (b : α) :
    listInsertAt (x :: xs) (o + 1) b = x :: listInsertAt xs o b := by
  simp [listInsertAt]

theorem listInsertAt_length (xs : List α) (o : Nat) (b : α)
    (h : o ≤ xs.length) :
    (listInsertAt xs o b).length = xs.length + 1 := by
  simp [listInsertAt]
  omega

theorem listInsertAt_length_self (xs : List α) (b : α) :
    listInsertAt xs xs.length b = xs ++ [b] := by
  simp [listInsertAt]

theorem listInsertAt_perm (xs : List α) (o : Nat) (b : α)
    (h : o ≤ xs.length) :
    (listInsertAt xs o b).Perm (b :: xs) := by
  induction o generalizing xs with
  | zero => rw [listInsertAt_zero]
  | succ o ih =>
    cases xs with
    | nil => simp at h
    | cons x xs =>
      rw [listInsertAt_succ_cons]
      exact (List.Perm.cons x (ih xs (by simpa using h))).trans
        (List.Perm.swap b x xs)

theorem listRemoveAt_length (xs : List α) (o : Nat) (h : o < xs.length) :
    (listRemoveAt xs o).length = xs.length - 1 := by
  simp [listRemoveAt]
  omega

theorem arrayInsertAt_eq (buf : List α) (sz o : Nat) (b : α) (ho : o ≤ sz) :
    arrayInsertAt buf sz o b =
      listInsertAt (buf.take sz) o b ++ buf.drop (sz + 1) := by
  unfold arrayInsertAt listInsertAt
  rw [List.take_take, Nat.min_eq_left ho, List.drop_take]

theorem arrayInsertAt_take (buf : List α) (sz o : Nat) (b : α)
    (ho : o ≤ sz) (hsz : sz < buf.length) :
    (arrayInsertAt buf sz o b).take (sz + 1) =
      listInsertAt (buf.take sz) o b := by
  rw [arrayInsertAt_eq buf sz o b ho]
  refine List.take_left' ?_
  rw [listInsertAt_length _ _ _ (by simp; omega)]
  simp
  omega

theorem arrayInsertAt_length (buf : List α) (sz o : Nat) (b : α)
    (ho : o ≤ sz) (hsz : sz < buf.length) :
    (arrayInsertAt buf sz o b).length = buf.length := by
  simp [arrayInsertAt]
  omega

theorem arrayRemoveAt_take (buf : List α) (o sz : Nat)
    (ho : o < sz) (hsz : sz ≤ buf.length) :
    (arrayRemoveAt buf o).take (sz - 1) = listRemoveAt (buf.take sz) o := by
  unfold arrayRemoveAt listRemoveAt
  rw [List.take_take, Nat.min_eq_left (by omega), List.drop_take,
    List.append_assoc, List.take_append_eq_append_take,
    List.take_append_of_le_length (by simp; omega),
    List.take_of_length_le (by simp; omega)]
  congr 1
  · simp
    omega

theorem arrayRemoveAt_length (buf : List α) (o : Nat)
    (ho : o < buf.length) :
    (arrayRemoveAt buf o).length = buf.length := by
  simp [arrayRemoveAt]
  omega

end BookList

namespace BookList

variable {α : Type}

theorem insert_invalidOffset [DecidableEq α] {L : BookList α} {b : α}
    {o : Nat} (hc : L.containers_are_consistent = true)
    (ho : L.books_vector_.length < o) :
    L.insert b o = .err .invalidOffset L := by
  unfold insert size
  rw [hc]
  simp [ho]

theorem insert_duplicate [DecidableEq α] {L : BookList α} {b : α} {o : Nat}
    (hc : L.containers_are_consistent = true)
    (hmem : b ∈ L.books_vector_) (ho : o ≤ L.books_vector_.length) :
    L.insert b o = .ok () L := by
  have hidx : findIndex L.books_vector_ b < L.books_vector_.length :=
    (findIndex_lt_length_iff _ _).mpr hmem
  unfold insert size find
  rw [hc]
  simp [show ¬ L.books_vector_.length < o from by omega,
    show findIndex L.books_vector_ b ≠ L.books_vector_.length from by omega]

theorem insert_capacity [DecidableEq α] {L : BookList α} {b : α} {o : Nat}
    (hc : L.containers_are_consistent = true)
    (hfull : L.books_array_size_ = L.books_array_.length)
    (hmem : b ∉ L.books_vector_) (ho : o ≤ L.books_vector_.length) :
    L.insert b o = .err .capacityExceeded L := by
  have hidx : findIndex L.books_vector_ b = L.books_vector_.length :=
    (findIndex_eq_length_iff _ _).mpr hmem
  unfold insert size find
  rw [hc]
  simp [show ¬ L.books_vector_.length < o from by omega, hidx,
    show L.books_array_.length ≤ L.books_array_size_ from by omega]

theorem insert_success [DecidableEq α] {L : BookList α} {b : α} {o : Nat}
    (hc : L.containers_are_consistent = true)
    (hmem : b ∉ L.books_vector_) (ho : o ≤ L.books_vector_.length)
    (hcap : L.books_array_size_ < L.books_array_.length) :
    ∃ L' : BookList α,
      L.insert b o = .ok () L' ∧
      L'.books_vector_ = listInsertAt L.books_vector_ o b ∧
      L'.books_dl_list_ = listInsertAt L.books_vector_ o b ∧
      L'.books_sl_list_ = listInsertAt L.books_vector_ o b ∧
      L'.books_array_size_ = L.books_vector_.length + 1 ∧
      L'.books_array_.length = L.books_array_.length ∧
      L'.containers_are_consistent = true := by
  obtain ⟨h1, h2, h3, h4⟩ := (containers_are_consistent_iff L).mp hc
  have hidx : findIndex L.books_vector_ b = L.books_vector_.length :=
    (findIndex_eq_length_iff _ _).mpr hmem
  have hsz : L.books_vector_.length < L.books_array_.length := by omega
  have hcons : (⟨arrayInsertAt L.books_array_ L.books_array_size_ o b,
      L.books_array_size_ + 1,
      listInsertAt L.books_vector_ o b,
      listInsertAt L.books_dl_list_ o b,
      listInsertAt L.books_sl_list_ o b⟩ : BookList α
      ).containers_are_consistent = true := by
    rw [containers_are_consistent_iff]
    refine ⟨?_, ?_, ?_, ?_⟩
    · show L.books_array_size_ + 1 = (listInsertAt L.books_vector_ o b).length
      rw [listInsertAt_length _ _ _ ho]
      omega
    · rw [h2]
    · rw [h3]
    · rw [listInsertAt_length _ _ _ ho, h1,
        arrayInsertAt_take _ _ _ _ ho (h1 ▸ hsz), h4]
  refine ⟨⟨arrayInsertAt L.books_array_ L.books_array_size_ o b,
    L.books_array_size_ + 1,
    listInsertAt L.books_vector_ o b,
    listInsertAt L.books_dl_list_ o b,
    listInsertAt L.books_sl_list_ o b⟩, ?_, ?_, ?_, ?_, ?_, ?_, ?_⟩
  · unfold insert size find
    rw [hc]
    simp only [show ¬ L.books_vector_.length < o from by omega, hidx,
      show ¬ L.books_array_.length ≤ L.books_array_size_ from by omega,
      if_false, ite_not, ite_true, ite_false, if_neg, gt_iff_lt,
      decide_eq_true_eq]
    rw [if_pos hcons]
  · rfl
  · rw [h2]
  · rw [h3]
  · show L.books_array_size_ + 1 = L.books_vector_.length + 1
    omega
  · rw [h1]
    exact arrayInsertAt_length _ _ _ _ ho hsz
  · exact hcons

end BookList

namespace BookList

variable {α : Type}

theorem insert_ok_consistent [DecidableEq α] {L L' : BookList α} {b : α}
    {o : Nat} (h : L.insert b o = .ok () L') :
    L.containers_are_consistent = true ∧
      L'.containers_are_consistent = true := by
  unfold insert size find at h
  by_cases hc : L.containers_are_consistent = true
  · rw [hc] at h
    refine ⟨hc, ?_⟩
    simp only [if_true] at h
    split at h
    · exact absurd h (by simp)
    · split at h
      · simp only [BLResult.ok.injEq, true_and] at h
        exact h ▸ hc
      · split at h
        · exact absurd h (by simp)
        · split at h
          · next hcons =>
            simp only [BLResult.ok.injEq, true_and] at h
            exact h ▸ hcons
          · exact absurd h (by simp)
  · rw [Bool.not_eq_true] at hc
    rw [hc] at h
    exact absurd h (by simp)

theorem insert_ok_nodup [DecidableEq α] {L L' : BookList α} {b : α}
    {o : Nat} (h : L.insert b o = .ok () L')
    (hnd : L.books_vector_.Nodup) : L'.books_vector_.Nodup := by
  unfold insert size find at h
  by_cases hc : L.containers_are_consistent = true
  · rw [hc] at h
    simp only [if_true] at h
    split at h
    · exact absurd h (by simp)
    · next hoff =>
      split at h
      · simp only [BLResult.ok.injEq, true_and] at h
        exact h ▸ hnd
      · next hdup =>
        split at h
        · exact absurd h (by simp)
        · split at h
          · next hcons =>
            simp only [BLResult.ok.injEq, true_and] at h
            rw [← h]
            show (listInsertAt L.books_vector_ o b).Nodup
            have ho : o ≤ L.books_vector_.length := by omega
            have hmem : b ∉ L.books_vector_ := by
              rw [← findIndex_eq_length_iff]
              omega
            rw [List.Perm.nodup_iff (listInsertAt_perm _ _ _ ho)]
            exact List.nodup_cons.mpr ⟨hmem, hnd⟩
          · exact absurd h (by simp)
  · rw [Bool.not_eq_true] at hc
    rw [hc] at h
    exact absurd h (by simp)

theorem remove_noop [DecidableEq α] {L : BookList α} {o : Nat}
    (hc : L.containers_are_consistent = true)
    (ho : L.books_vector_.length ≤ o) :
    L.remove o = .ok () L := by
  unfold remove size
  rw [hc]
  simp [ho]

theorem remove_success [DecidableEq α] {L : BookList α} {o : Nat}
    (hc : L.containers_are_consistent = true)
    (ho : o < L.books_vector_.length) :
    ∃ L' : BookList α,
      L.remove o = .ok () L' ∧
      L'.books_vector_ = listRemoveAt L.books_vector_ o ∧
      L'.books_dl_list_ = listRemoveAt L.books_vector_ o ∧
      L'.books_sl_list_ = listRemoveAt L.books_vector_ o ∧
      L'.books_array_size_ = L.books_vector_.length - 1 ∧
      L'.books_array_.length = L.books_array_.length ∧
      L'.containers_are_consistent = true := by
  obtain ⟨h1, h2, h3, h4⟩ := (containers_are_consistent_iff L).mp hc
  have hlen := length_le_of_consistent hc
  have hcons : (⟨arrayRemoveAt L.books_array_ o,
      L.books_array_size_ - 1,
      listRemoveAt L.books_vector_ o,
      listRemoveAt L.books_dl_list_ o,
      listRemoveAt L.books_sl_list_ o⟩ : BookList α
      ).containers_are_consistent = true := by
    rw [containers_are_consistent_iff]
    refine ⟨?_, ?_, ?_, ?_⟩
    · show L.books_array_size_ - 1 = (listRemoveAt L.books_vector_ o).length
      rw [listRemoveAt_length _ _ ho]
      omega
    · rw [h2]
    · rw [h3]
    · show (arrayRemoveAt L.books_array_ o).take
          (listRemoveAt L.books_vector_ o).length = _
      rw [listRemoveAt_length _ _ ho,
        arrayRemoveAt_take _ o L.books_vector_.length ho hlen, h4]
  refine ⟨⟨arrayRemoveAt L.books_array_ o,
    L.books_array_size_ - 1,
    listRemoveAt L.books_vector_ o,
    listRemoveAt L.books_dl_list_ o,
    listRemoveAt L.books_sl_list_ o⟩, ?_, rfl, by rw [h2], by rw [h3],
    ?_, ?_, hcons⟩
  · unfold remove size
    rw [hc]
    simp only [ge_iff_le, show ¬ L.books_vector_.length ≤ o from by omega,
      if_true, if_false, ite_false, ite_true]
    rw [if_pos hcons]
  · show L.books_array_size_ - 1 = L.books_vector_.length - 1
    omega
  · show (arrayRemoveAt L.books_array_ o).length = L.books_array_.length
    exact arrayRemoveAt_length _ _ (by omega)

theorem remove_ok_consistent [DecidableEq α] {L L' : BookList α} {o : Nat}
    (h : L.remove o = .ok () L') :
    L.containers_are_consistent = true ∧
      L'.containers_are_consistent = true := by
  unfold remove size at h
  by_cases hc : L.containers_are_consistent = true
  · rw [hc] at h
    refine ⟨hc, ?_⟩
    simp only [if_true] at h
    split at h
    · simp only [BLResult.ok.injEq, true_and] at h
      exact h ▸ hc
    · split at h
      · next hcons =>
        simp only [BLResult.ok.injEq, true_and] at h
        exact h ▸ hcons
      · exact absurd h (by simp)
  · rw [Bool.not_eq_true] at hc
    rw [hc] at h
    exact absurd h (by simp)

end BookList

namespace BookList

variable {α : Type}

theorem insertPos_ok_consistent [DecidableEq α] {L L' : BookList α} {b : α}
    {p : BLPosition} (h : L.insertPos b p = .ok () L') :
    L'.containers_are_consistent = true := by
  cases p with
  | TOP =>
    simp only [insertPos] at h
    exact (insert_ok_consistent h).2
  | BOTTOM =>
    simp only [insertPos, size] at h
    by_cases hc : L.containers_are_consistent = true
    · rw [hc] at h
      simp only [if_true] at h
      exact (insert_ok_consistent h).2
    · rw [Bool.not_eq_true] at hc
      rw [hc] at h
      exact absurd h (by simp)

theorem removeBook_ok_consistent [DecidableEq α] {L L' : BookList α}
    {b : α} (h : L.removeBook b = .ok () L') :
    L'.containers_are_consistent = true := by
  unfold removeBook find at h
  by_cases hc : L.containers_are_consistent = true
  · rw [hc] at h
    simp only [if_true] at h
    exact (remove_ok_consistent h).2
  · rw [Bool.not_eq_true] at hc
    rw [hc] at h
    exact absurd h (by simp)

theorem move_to_top_ok_consistent [DecidableEq α] {L L' : BookList α}
    {b : α} (h : L.move_to_top b = .ok () L') :
    L'.containers_are_consistent = true := by
  unfold move_to_top find size at h
  by_cases hc : L.containers_are_consistent = true
  · rw [hc] at h
    simp only [if_true] at h
    split at h
    · split at h
      · exact absurd h (by simp)
      · split at h
        · exact absurd h (by simp)
        · split at h
          · next hcons =>
            simp only [BLResult.ok.injEq, true_and] at h
            exact h ▸ hcons
          · exact absurd h (by simp)
    · simp only [BLResult.ok.injEq, true_and] at h
      exact h ▸ hc
  · rw [Bool.not_eq_true] at hc
    rw [hc] at h
    exact absurd h (by simp)

theorem opPlusEq_ok_consistent [DecidableEq α] {L M L' : BookList α}
    (h : L.opPlusEq M = .ok () L') :
    L'.containers_are_consistent = true := by
  unfold opPlusEq at h
  split at h
  · exact absurd h (by simp)
  · split at h
    · next hcons =>
      simp only [BLResult.ok.injEq, true_and] at h
      exact h ▸ hcons
    · exact absurd h (by simp)

theorem parseLoop_done_consistent [DecidableEq α] :
    ∀ (items : List α) (L : BookList α) (count : Nat) (L' : BookList α)
      (rest : List α), L.containers_are_consistent = true →
      parseLoop L count items = .done L' rest →
      L'.containers_are_consistent = true := by
  intro items
  induction items with
  | nil =>
    intro L count L' rest hc h
    unfold parseLoop at h
    split at h
    · simp only [ParseOutcome.done.injEq] at h
      exact h.1 ▸ hc
    · exact absurd h (by simp)
  | cons b rest0 ih =>
    intro L count L' rest hc h
    unfold parseLoop at h
    split at h
    · simp only [ParseOutcome.done.injEq] at h
      exact h.1 ▸ hc
    · cases hins : L.insertPos b BLPosition.BOTTOM with
      | err e M =>
        rw [hins] at h
        exact absurd h (by simp)
      | ok u M =>
        rw [hins] at h
        cases u
        exact ih M count L' rest (insertPos_ok_consistent hins) h

theorem parse_done_consistent [DecidableEq α] {L L' : BookList α}
    {count : Nat} {items rest : List α}
    (h : L.parse count items = .done L' rest) :
    L'.containers_are_consistent = true := by
  unfold parse at h
  by_cases hc : L.containers_are_consistent = true
  · rw [hc] at h
    simp only [if_true] at h
    exact parseLoop_done_consistent items L count L' rest hc h
  · rw [Bool.not_eq_true] at hc
    rw [hc] at h
    exact absurd h (by simp)

theorem swap_eq (L M : BookList α) : BookList.swap L M = (M, L) := rfl

theorem empty_consistent [DecidableEq α] (buf : List α) :
    (⟨buf, 0, [], [], []⟩ : BookList α).containers_are_consistent = true := by
  rw [containers_are_consistent_iff]
  simp

theorem reachable_consistent [DecidableEq α] {L : BookList α}
    (h : Reachable L) : L.containers_are_consistent = true := by
  induction h with
  | empty buf => exact empty_consistent buf
  | insertOff _ hstep ih => exact (insert_ok_consistent hstep).2
  | insertAtPos _ hstep ih => exact insertPos_ok_consistent hstep
  | removeOff _ hstep ih => exact (remove_ok_consistent hstep).2
  | removeBk _ hstep ih => exact removeBook_ok_consistent hstep
  | moveToTop _ hstep ih => exact move_to_top_ok_consistent hstep
  | concat _ _ hstep ihL ihM => exact opPlusEq_ok_consistent hstep
  | swapFst _ _ ihL ihM => exact ihM
  | swapSnd _ _ ihL ihM => exact ihL
  | parseOk _ hstep ih => exact parse_done_consistent hstep

end BookList

namespace BookList

variable {α : Type}

theorem compareLoop_self [LinearOrder α] (xs : List α) :
    compareLoop xs xs = 0 := by
  induction xs with
  | nil => rfl
  | cons x xs ih => simp [compareLoop, lt_irrefl, ih]

theorem compareLoop_eq_zero_iff [LinearOrder α] :
    ∀ xs ys : List α, xs.length = ys.length →
      (compareLoop xs ys = 0 ↔ xs = ys)
  | [], [] => by simp [compareLoop]
  | [], y :: ys => by simp
  | x :: xs, [] => by simp
  | x :: xs, y :: ys => by
    intro hlen
    simp only [List.length_cons, Nat.add_right_cancel_iff] at hlen
    by_cases hxy : x < y
    · simp only [compareLoop, if_pos hxy]
      constructor
      · intro h
        exact absurd h (by decide)
      · intro h
        simp only [List.cons.injEq] at h
        exact absurd (h.1 ▸ hxy) (lt_irrefl y)
    · by_cases hyx : y < x
      · simp only [compareLoop, if_neg hxy, if_pos hyx]
        constructor
        · intro h
          exact absurd h (by decide)
        · intro h
          simp only [List.cons.injEq] at h
          exact absurd (h.1 ▸ hyx) (lt_irrefl y)
      · have hxy2 : x = y := le_antisymm (not_lt.mp hyx) (not_lt.mp hxy)
        subst hxy2
        simp only [compareLoop, if_neg hxy, if_neg hyx,
          List.cons.injEq, true_and]
        exact compareLoop_eq_zero_iff xs ys hlen

theorem compareLoop_neg_iff [LinearOrder α] :
    ∀ xs ys : List α,
      (compareLoop xs ys < 0 ↔
        ∃ i a b, xs.take i = ys.take i ∧ xs.get? i = some a ∧
          ys.get? i = some b ∧ a < b)
  | [], ys => by simp [compareLoop]
  | x :: xs, [] => by
    simp only [compareLoop]
    constructor
    · intro h
      exact absurd h (by decide)
    · rintro ⟨i, a, b, -, -, hb, -⟩
      simp at hb
  | x :: xs, y :: ys => by
    by_cases hxy : x < y
    · simp only [compareLoop, if_pos hxy]
      constructor
      · intro _
        exact ⟨0, x, y, by simp, by simp, by simp, hxy⟩
      · intro _
        decide
    · by_cases hyx : y < x
      · simp only [compareLoop, if_neg hxy, if_pos hyx]
        constructor
        · intro h
          exact absurd h (by decide)
        · rintro ⟨i, a, b, htake, ha, hb, hab⟩
          cases i with
          | zero =>
            simp only [List.get?_cons_zero, Option.some.injEq] at ha hb
            exact absurd (ha ▸ hb ▸ hab) hxy
          | succ j =>
            simp only [List.take_succ_cons, List.cons.injEq] at htake
            exact absurd (htake.1 ▸ hyx) (lt_irrefl y)
      · have hxy2 : x = y := le_antisymm (not_lt.mp hyx) (not_lt.mp hxy)
        subst hxy2
        simp only [compareLoop, if_neg hxy, if_neg hyx]
        rw [compareLoop_neg_iff xs ys]
        constructor
        · rintro ⟨i, a, b, htake, ha, hb, hab⟩
          exact ⟨i + 1, a, b, by simp [htake], by simpa using ha,
            by simpa using hb, hab⟩
        · rintro ⟨i, a, b, htake, ha, hb, hab⟩
          cases i with
          | zero =>
            simp only [List.get?_cons_zero, Option.some.injEq] at ha hb
            subst ha
            subst hb
            exact absurd hab (lt_irrefl x)
          | succ j =>
            simp only [List.take_succ_cons, List.cons.injEq, true_and]
              at htake
            exact ⟨j, a, b, htake, by simpa using ha, by simpa using hb, hab⟩

theorem compareLoop_swap [LinearOrder α] :
    ∀ xs ys : List α, compareLoop ys xs = -compareLoop xs ys
  | [], [] => by simp [compareLoop]
  | [], y :: ys => by simp [compareLoop]
  | x :: xs, [] => by simp [compareLoop]
  | x :: xs, y :: ys => by
    by_cases hxy : x < y
    · have hyx : ¬ y < x := lt_asymm hxy
      simp [compareLoop, hxy, hyx]
    · by_cases hyx : y < x
      · simp [compareLoop, hxy, hyx]
      · simp only [compareLoop, if_neg hxy, if_neg hyx]
        exact compareLoop_swap xs ys

theorem compareLoop_pos_iff [LinearOrder α] (xs ys : List α) :
    0 < compareLoop xs ys ↔
      ∃ i a b, xs.take i = ys.take i ∧ xs.get? i = some a ∧
        ys.get? i = some b ∧ b < a := by
  have h0 : (0 < compareLoop xs ys) ↔ (compareLoop ys xs < 0) := by
    rw [compareLoop_swap xs ys]
    omega
  rw [h0, compareLoop_neg_iff ys xs]
  constructor
  · rintro ⟨i, b, a, htake, hb, ha, hab⟩
    exact ⟨i, a, b, htake.symm, ha, hb, hab⟩
  · rintro ⟨i, a, b, htake, ha, hb, hab⟩
    exact ⟨i, b, a, htake.symm, hb, ha, hab⟩

end BookList

namespace BookList

variable {α : Type}

theorem insertPos_bottom_success [DecidableEq α] {L : BookList α} {b : α}
    (hc : L.containers_are_consistent = true)
    (hmem : b ∉ L.books_vector_)
    (hcap : L.books_array_size_ < L.books_array_.length) :
    ∃ L' : BookList α,
      L.insertPos b .BOTTOM = .ok () L' ∧
      L'.books_vector_ = L.books_vector_ ++ [b] ∧
      L'.books_array_.length = L.books_array_.length ∧
      L'.containers_are_consistent = true := by
  obtain ⟨L', heq, hvec, -, -, -, hlen, hcons⟩ :=
    insert_success hc hmem (le_refl L.books_vector_.length) hcap
  refine ⟨L', ?_, ?_, hlen, hcons⟩
  · simp only [insertPos, size]
    rw [hc]
    simp only [if_true]
    exact heq
  · rw [hvec, listInsertAt_length_self]

theorem parseLoop_appends [DecidableEq α] :
    ∀ (items : List α) (L : BookList α),
      L.containers_are_consistent = true →
      items.Nodup →
      (∀ b ∈ items, b ∉ L.books_vector_) →
      L.books_vector_.length + items.length ≤ L.books_array_.length →
      ∃ L' : BookList α,
        parseLoop L (L.books_vector_.length + items.length) items =
          .done L' [] ∧
        L'.books_vector_ = L.books_vector_ ++ items ∧
        L'.containers_are_consistent = true := by
  intro items
  induction items with
  | nil =>
    intro L hc _ _ _
    obtain ⟨h1, h2, h3, h4⟩ := (containers_are_consistent_iff L).mp hc
    refine ⟨L, ?_, by simp, hc⟩
    unfold parseLoop
    rw [if_pos]
    unfold books_sl_list_size
    rw [h3]
    simp
  | cons b rest ih =>
    intro L hc hnd hfresh hcap
    obtain ⟨h1, h2, h3, h4⟩ := (containers_are_consistent_iff L).mp hc
    have hmem : b ∉ L.books_vector_ := hfresh b (List.mem_cons_self b rest)
    have hcapL : L.books_array_size_ < L.books_array_.length := by
      simp only [List.length_cons] at hcap
      omega
    obtain ⟨L1, heq, hvec1, hlen1, hcons1⟩ :=
      insertPos_bottom_success hc hmem hcapL
    have hvlen1 : L1.books_vector_.length = L.books_vector_.length + 1 := by
      rw [hvec1]
      simp
    have hfresh1 : ∀ x ∈ rest, x ∉ L1.books_vector_ := by
      intro x hx
      rw [hvec1]
      simp only [List.mem_append, List.mem_singleton]
      rintro (hxv | hxb)
      · exact hfresh x (List.mem_cons_of_mem b hx) hxv
      · exact (List.nodup_cons.mp hnd).1 (hxb ▸ hx)
    have hcap1 :
        L1.books_vector_.length + rest.length ≤ L1.books_array_.length := by
      rw [hvlen1, hlen1]
      simp only [List.length_cons] at hcap
      omega
    obtain ⟨L', hdone, hvec', hcons'⟩ :=
      ih L1 hcons1 (List.nodup_cons.mp hnd).2 hfresh1 hcap1
    refine ⟨L', ?_, ?_, hcons'⟩
    · unfold parseLoop
      rw [if_neg, heq]
      · have hcount : L.books_vector_.length + (b :: rest).length =
            L1.books_vector_.length + rest.length := by
          rw [hvlen1]
          simp
          omega
        rw [hcount]
        exact hdone
      · unfold books_sl_list_size
        rw [h3]
        simp
    · rw [hvec', hvec1]
      simp

theorem insertSeq_ok_nodup [DecidableEq α] :
    ∀ (ops : List (α × Nat)) (L L' : BookList α),
      L.books_vector_.Nodup → insertSeq L ops = .ok () L' →
      L'.books_vector_.Nodup := by
  intro ops
  induction ops with
  | nil =>
    intro L L' hnd h
    unfold insertSeq at h
    simp only [BLResult.ok.injEq, true_and] at h
    exact h ▸ hnd
  | cons op rest ih =>
    intro L L' hnd h
    obtain ⟨b, o⟩ := op
    unfold insertSeq at h
    cases hins : L.insert b o with
    | err e M =>
      rw [hins] at h
      exact absurd h (by simp)
    | ok u M =>
      rw [hins] at h
      cases u
      exact ih M L' (insert_ok_nodup hins hnd) h

end BookList

/-! ## Claim theorems -/

open BookList

/-- C1: every `BookList` state reachable from an empty list via the public
operations (both `insert` overloads, both `remove` overloads,
`move_to_top`, `operator+=`, `swap`, `operator>>`) has all four containers
at equal length holding equal elements in the same order; equivalently,
`containers_are_consistent()` returns true on every such state. -/
theorem C1_reachable_states_consistent [DecidableEq α] {L : BookList α}
    (h : Reachable L) :
    L.containers_are_consistent = true ∧
    L.books_array_size_ = L.books_vector_.length ∧
    L.books_dl_list_ = L.books_vector_ ∧
    L.books_sl_list_ = L.books_vector_ ∧
    L.books_array_.take L.books_vector_.length = L.books_vector_ := by
  have hc := reachable_consistent h
  exact ⟨hc, (containers_are_consistent_iff L).mp hc⟩

/-- Witness for C1 at the concrete reachable state obtained by inserting
the book `5` at offset `0` into an empty list of capacity 3. -/
theorem C1_witness :
    (⟨[5, 0, 0], 1, [5], [5], [5]⟩ : BookList Nat
      ).containers_are_consistent = true ∧
    (⟨[5, 0, 0], 1, [5], [5], [5]⟩ : BookList Nat).books_array_size_ =
      (⟨[5, 0, 0], 1, [5], [5], [5]⟩ : BookList Nat
        ).books_vector_.length ∧
    (⟨[5, 0, 0], 1, [5], [5], [5]⟩ : BookList Nat).books_dl_list_ =
      (⟨[5, 0, 0], 1, [5], [5], [5]⟩ : BookList Nat).books_vector_ ∧
    (⟨[5, 0, 0], 1, [5], [5], [5]⟩ : BookList Nat).books_sl_list_ =
      (⟨[5, 0, 0], 1, [5], [5], [5]⟩ : BookList Nat).books_vector_ ∧
    (⟨[5, 0, 0], 1, [5], [5], [5]⟩ : BookList Nat).books_array_.take
        (⟨[5, 0, 0], 1, [5], [5], [5]⟩ : BookList Nat
          ).books_vector_.length =
      (⟨[5, 0, 0], 1, [5], [5], [5]⟩ : BookList Nat).books_vector_ :=
  C1_reachable_states_consistent
    (@Reachable.insertOff Nat _ ⟨[0, 0, 0], 0, [], [], []⟩
      ⟨[5, 0, 0], 1, [5], [5], [5]⟩ 5 0 (Reachable.empty [0, 0, 0])
      (by decide))

/-- C2: when the fixed-capacity array is full (`books_array_size_` equals
the capacity) and the book is not already present, `insert` with a valid
offset throws `CapacityExceededException` and leaves all four containers
exactly unchanged. -/
theorem C2_full_insert_capacity_fault [DecidableEq α] {L : BookList α}
    {book : α} {offset : Nat}
    (hc : L.containers_are_consistent = true)
    (hfull : L.books_array_size_ = L.books_array_.length)
    (hmem : book ∉ L.books_vector_)
    (hoff : offset ≤ L.books_vector_.length) :
    L.insert book offset = .err .capacityExceeded L :=
  insert_capacity hc hfull hmem hoff

/-- Witness for C2: a full one-slot list `[5]`; inserting `7` at the valid
offset `1` is a capacity fault with the state intact. -/
theorem C2_witness :
    (⟨[5], 1, [5], [5], [5]⟩ : BookList Nat).insert 7 1 =
      .err .capacityExceeded ⟨[5], 1, [5], [5], [5]⟩ :=
  C2_full_insert_capacity_fault (by decide) (by decide) (by decide)
    (by decide)

/-- C3: `insert` with an offset strictly greater than `size()` throws
`InvalidOffsetException` leaving all four containers exactly unchanged,
and no offset `≤ size()` ever produces an invalid-offset fault. -/
theorem C3_insert_offset_validation [DecidableEq α] (L : BookList α)
    (book : α) (offset : Nat)
    (hc : L.containers_are_consistent = true) :
    (L.books_vector_.length < offset →
      L.insert book offset = .err .invalidOffset L) ∧
    (offset ≤ L.books_vector_.length →
      ∀ (e : BLError) (L' : BookList α),
        L.insert book offset = .err e L' → e ≠ .invalidOffset) := by
  constructor
  · intro ho
    exact insert_invalidOffset hc ho
  · intro ho e L' h
    unfold BookList.insert BookList.size BookList.find at h
    rw [hc] at h
    simp only [if_true] at h
    rw [if_neg (by omega : ¬ offset > L.books_vector_.length)] at h
    split at h
    · exact absurd h (by simp)
    · split at h
      · simp only [BLResult.err.injEq] at h
        intro hcontra
        rw [hcontra] at h
        exact BLError.noConfusion h.1
      · split at h
        · exact absurd h (by simp)
        · simp only [BLResult.err.injEq] at h
          intro hcontra
          rw [hcontra] at h
          exact BLError.noConfusion h.1

/-- Witness for C3: inserting at offset `1` into an empty list is an
invalid-offset fault with the state intact. -/
theorem C3_witness :
    (⟨[0], 0, [], [], []⟩ : BookList Nat).insert 7 1 =
      .err .invalidOffset ⟨[0], 0, [], [], []⟩ :=
  (C3_insert_offset_validation _ 7 1 (by decide)).1 (by decide)

/-- C4: inserting a book already present, at any valid offset, returns
with all four containers unchanged and no fault; consequently any
sequence of inserts from a duplicate-free state leaves no two distinct
positions holding equal books. -/
theorem C4_duplicate_suppression [DecidableEq α] (L : BookList α) :
    (∀ (book : α) (offset : Nat),
      L.containers_are_consistent = true →
      book ∈ L.books_vector_ → offset ≤ L.books_vector_.length →
      L.insert book offset = .ok () L) ∧
    (∀ (ops : List (α × Nat)) (L' : BookList α),
      L.books_vector_.Nodup → insertSeq L ops = .ok () L' →
      ∀ (i j : Nat) (hi : i < L'.books_vector_.length)
        (hj : j < L'.books_vector_.length), i ≠ j →
        L'.books_vector_.get ⟨i, hi⟩ ≠ L'.books_vector_.get ⟨j, hj⟩) := by
  constructor
  · intro book offset hc hmem hoff
    exact insert_duplicate hc hmem hoff
  · intro ops L' hnd h i j hi hj hij heq
    have hnd' := insertSeq_ok_nodup ops L L' hnd h
    have hinj := List.nodup_iff_injective_get.mp hnd'
    have := hinj heq
    simp only [Fin.mk.injEq] at this
    exact hij this

/-- Witness for C4: a duplicate insert of `5` into `[5,7]` is a no-op, and
the insert sequence `[(5,0),(7,1)]` from empty yields distinct books at
the two distinct positions. -/
theorem C4_witness :
    ((⟨[5, 7, 0], 2, [5, 7], [5, 7], [5, 7]⟩ : BookList Nat).insert 5 0 =
      .ok () ⟨[5, 7, 0], 2, [5, 7], [5, 7], [5, 7]⟩) ∧
    ((⟨[5, 7], 2, [5, 7], [5, 7], [5, 7]⟩ : BookList Nat
        ).books_vector_.get ⟨0, by decide⟩ ≠
      (⟨[5, 7], 2, [5, 7], [5, 7], [5, 7]⟩ : BookList Nat
        ).books_vector_.get ⟨1, by decide⟩) :=
  ⟨(C4_duplicate_suppression _).1 5 0 (by decide) (by decide) (by decide),
   (C4_duplicate_suppression (⟨[0, 0], 0, [], [], []⟩ : BookList Nat)).2
     [(5, 0), (7, 1)] _ (by decide) (by decide) 0 1 (by decide) (by decide)
     (by decide)⟩

/-- C5: `compare` realizes the documented total order — negative when this
list is shorter, positive when longer, and on equal lengths the
`Item`-order sign at the first differing position (zero when none) — and
each of the six relational operators returns exactly the corresponding
comparison of `compare`'s result against 0. -/
theorem C5_compare_total_order [DecidableEq α] [LinearOrder α]
    (L M : BookList α)
    (hL : L.containers_are_consistent = true)
    (hM : M.containers_are_consistent = true) :
    ∃ c : Int, L.compare M = .ok c ∧
      (L.books_vector_.length < M.books_vector_.length → c < 0) ∧
      (M.books_vector_.length < L.books_vector_.length → 0 < c) ∧
      (L.books_vector_.length = M.books_vector_.length →
        ((c < 0 ↔ ∃ i a b,
            L.books_vector_.take i = M.books_vector_.take i ∧
            L.books_vector_.get? i = some a ∧
            M.books_vector_.get? i = some b ∧ a < b) ∧
         (0 < c ↔ ∃ i a b,
            L.books_vector_.take i = M.books_vector_.take i ∧
            L.books_vector_.get? i = some a ∧
            M.books_vector_.get? i = some b ∧ b < a) ∧
         (c = 0 ↔ L.books_vector_ = M.books_vector_))) ∧
      L.eqRel M = .ok (decide (c = 0)) ∧
      L.neRel M = .ok (decide (c ≠ 0)) ∧
      L.ltRel M = .ok (decide (c < 0)) ∧
      L.leRel M = .ok (decide (c ≤ 0)) ∧
      L.gtRel M = .ok (decide (0 < c)) ∧
      L.geRel M = .ok (decide (0 ≤ c)) := by
  have hcomp : L.compare M =
      .ok (if L.books_vector_.length < M.books_vector_.length then -1
        else if M.books_vector_.length < L.books_vector_.length then 1
        else compareLoop L.books_vector_ M.books_vector_) := by
    unfold BookList.compare
    rw [hL, hM]
    simp
  refine ⟨_, hcomp, ?_, ?_, ?_, ?_, ?_, ?_, ?_, ?_, ?_⟩
  · intro hlt
    rw [if_pos hlt]
    decide
  · intro hgt
    rw [if_neg (by omega), if_pos hgt]
    decide
  · intro heq
    rw [if_neg (by omega), if_neg (by omega)]
    exact ⟨compareLoop_neg_iff _ _, compareLoop_pos_iff _ _,
      compareLoop_eq_zero_iff _ _ heq⟩
  · simp only [eqRel, hcomp]
  · simp only [neRel, hcomp]
  · simp only [ltRel, hcomp]
  · simp only [leRel, hcomp]
  · simp only [gtRel, hcomp]
  · simp only [geRel, hcomp]

/-- Witness for C5 at the singleton lists `[5]` and `[7]`: compare
succeeds and is negative at the first differing position. -/
theorem C5_witness :
    ∃ c : Int,
      BookList.compare (⟨[5], 1, [5], [5], [5]⟩ : BookList Nat)
        ⟨[7], 1, [7], [7], [7]⟩ = .ok c ∧ c < 0 := by
  obtain ⟨c, hc, -, -, hiff, -⟩ :=
    C5_compare_total_order (⟨[5], 1, [5], [5], [5]⟩ : BookList Nat)
      ⟨[7], 1, [7], [7], [7]⟩ (by decide) (by decide)
  refine ⟨c, hc, ?_⟩
  exact ((hiff (by decide)).1).mpr ⟨0, 5, 7, by decide, by decide, by decide,
    by decide⟩

/-- C6 counterexample: the state holding `[5,5]` in all four containers is
consistent (`containers_are_consistent` checks cross-container agreement,
not duplicate-freedom).  Serializing it emits count `2` and books
`[5,5]`, but parsing that text into a default-constructed list gets stuck:
the duplicate insert is silently suppressed, the singly linked list's
length never reaches the declared count, and the loop exhausts the stream
without ever yielding a parsed list, so no `M` with `compare == 0` is
produced. -/
theorem C6_counterexample :
    (⟨[5, 5], 2, [5, 5], [5, 5], [5, 5]⟩ : BookList Nat
      ).containers_are_consistent = true ∧
    (⟨[5, 5], 2, [5, 5], [5, 5], [5, 5]⟩ : BookList Nat).serialize =
      .ok (2, [5, 5]) ∧
    (⟨[0, 0], 0, [], [], []⟩ : BookList Nat).parse 2 [5, 5] =
      .exhausted ⟨[5, 0], 1, [5], [5], [5]⟩ :=
  ⟨by decide, rfl, by decide⟩

/-- C6 (amended): for every consistent *duplicate-free* `BookList`,
serializing with `operator<<` and parsing the produced text with
`operator>>` into a default-constructed list of at least the same capacity
yields an `M` with `compare(M) == 0`. -/
theorem C6_roundtrip_amended [DecidableEq α] [LinearOrder α]
    (L : BookList α) (buf0 : List α)
    (hc : L.containers_are_consistent = true)
    (hnd : L.books_vector_.Nodup)
    (hbuf : L.books_array_.length ≤ buf0.length) :
    ∃ (N : Nat) (books : List α) (M : BookList α),
      L.serialize = .ok (N, books) ∧
      (⟨buf0, 0, [], [], []⟩ : BookList α).parse N books = .done M [] ∧
      L.compare M = .ok 0 := by
  obtain ⟨h1, h2, h3, h4⟩ := (containers_are_consistent_iff L).mp hc
  have hlen := length_le_of_consistent hc
  have hser : L.serialize = .ok (L.books_vector_.length, L.books_vector_) := by
    unfold serialize
    rw [hc]
    simp [h3]
  obtain ⟨M, hdone, hvecM, hconsM⟩ :=
    parseLoop_appends L.books_vector_ ⟨buf0, 0, [], [], []⟩
      (empty_consistent buf0) hnd (by intro b hb; simp)
      (by simp; omega)
  have hvM : M.books_vector_ = L.books_vector_ := by simpa using hvecM
  refine ⟨L.books_vector_.length, L.books_vector_, M, hser, ?_, ?_⟩
  · unfold BookList.parse
    rw [if_pos (empty_consistent buf0)]
    simpa using hdone
  · unfold BookList.compare
    rw [hc, hconsM, hvM]
    simp [compareLoop_self]

/-- Witness for the amended C6 at the one-element list `[5]`. -/
theorem C6_witness :
    ∃ (N : Nat) (books : List Nat) (M : BookList Nat),
      (⟨[5], 1, [5], [5], [5]⟩ : BookList Nat).serialize = .ok (N, books) ∧
      (⟨[0], 0, [], [], []⟩ : BookList Nat).parse N books = .done M [] ∧
      BookList.compare ⟨[5], 1, [5], [5], [5]⟩ M = .ok 0 :=
  C6_roundtrip_amended _ [0] (by decide) (by decide) (by decide)

/-- C7 counterexample: on the initial state `[5]` (singly linked list
already one long) with a well-formed stream declaring `N = 1` followed by
the single element `7`, the parse loop's condition
`count != books_sl_list_size()` is false immediately, so `operator>>`
terminates having inserted zero elements — not the declared one — and
leaves the element unread. -/
theorem C7_counterexample :
    (⟨[5, 0], 1, [5], [5], [5]⟩ : BookList Nat
      ).containers_are_consistent = true ∧
    (⟨[5, 0], 1, [5], [5], [5]⟩ : BookList Nat).parse 1 [7] =
      .done ⟨[5, 0], 1, [5], [5], [5]⟩ [7] := by
  decide

/-- C7 (amended): for an *initially empty* `BookList` and a well-formed
stream declaring `N` pairwise-distinct elements with `N` within the fixed
array's capacity, `operator>>` inserts exactly the `N` decoded elements at
the bottom, in stream order, and terminates. -/
theorem C7_parse_amended [DecidableEq α] (buf : List α) (items : List α)
    (hnd : items.Nodup) (hcap : items.length ≤ buf.length) :
    ∃ M : BookList α,
      (⟨buf, 0, [], [], []⟩ : BookList α).parse items.length items =
        .done M [] ∧
      M.books_vector_ = items ∧ M.books_dl_list_ = items ∧
      M.books_sl_list_ = items := by
  obtain ⟨M, hdone, hvec, hcons⟩ :=
    parseLoop_appends items ⟨buf, 0, [], [], []⟩ (empty_consistent buf)
      hnd (by intro b hb; simp) (by simp; omega)
  obtain ⟨m1, m2, m3, m4⟩ := (containers_are_consistent_iff M).mp hcons
  have hv : M.books_vector_ = items := by simpa using hvec
  refine ⟨M, ?_, hv, by rw [m2, hv], by rw [m3, hv]⟩
  unfold BookList.parse
  rw [if_pos (empty_consistent buf)]
  simpa using hdone

/-- Witness for the amended C7: parsing `2` declared elements `[5,7]` into
an empty two-slot list inserts exactly those two books in order. -/
theorem C7_witness :
    ∃ M : BookList Nat,
      (⟨[0, 0], 0, [], [], []⟩ : BookList Nat).parse 2 [5, 7] =
        .done M [] ∧ M.books_vector_ = [5, 7] := by
  obtain ⟨M, h1, h2, -, -⟩ :=
    C7_parse_amended [0, 0] ([5, 7] : List Nat) (by decide) (by decide)
  exact ⟨M, h1, h2⟩

/-- C8: `remove(offset)` with `offset ≥ size()` returns with all four
containers unchanged and no fault; with `offset < size()` it removes
exactly the element at that offset from all four containers (each new
container is the old one with position `offset` cut out, the order of the
remaining elements preserved). -/
theorem C8_remove_semantics [DecidableEq α] (L : BookList α) (offset : Nat)
    (hc : L.containers_are_consistent = true) :
    (L.books_vector_.length ≤ offset → L.remove offset = .ok () L) ∧
    (offset < L.books_vector_.length →
      ∃ L' : BookList α, L.remove offset = .ok () L' ∧
        L'.books_vector_ = listRemoveAt L.books_vector_ offset ∧
        L'.books_dl_list_ = listRemoveAt L.books_dl_list_ offset ∧
        L'.books_sl_list_ = listRemoveAt L.books_sl_list_ offset ∧
        L'.books_array_.take L'.books_array_size_ =
          listRemoveAt (L.books_array_.take L.books_array_size_) offset) := by
  obtain ⟨h1, h2, h3, h4⟩ := (containers_are_consistent_iff L).mp hc
  constructor
  · intro ho
    exact remove_noop hc ho
  · intro ho
    obtain ⟨L', heq, hvec, hdl, hsl, hsize, hlen, hcons⟩ :=
      remove_success hc ho
    obtain ⟨g1, g2, g3, g4⟩ := (containers_are_consistent_iff L').mp hcons
    refine ⟨L', heq, hvec, by rw [hdl, h2], by rw [hsl, h3], ?_⟩
    rw [g1, g4, hvec, h1, h4]

/-- Witness for C8 on `[5,7,9]`: removing at offset `5` is a no-op and
removing at offset `1` yields `[5,9]`. -/
theorem C8_witness :
    ((⟨[5, 7, 9], 3, [5, 7, 9], [5, 7, 9], [5, 7, 9]⟩ : BookList Nat
        ).remove 5 =
      .ok () ⟨[5, 7, 9], 3, [5, 7, 9], [5, 7, 9], [5, 7, 9]⟩) ∧
    (∃ L' : BookList Nat,
      (⟨[5, 7, 9], 3, [5, 7, 9], [5, 7, 9], [5, 7, 9]⟩ : BookList Nat
          ).remove 1 = .ok () L' ∧ L'.books_vector_ = [5, 9]) := by
  constructor
  · exact (C8_remove_semantics _ 5 (by decide)).1 (by decide)
  · obtain ⟨L', heq, hvec, -⟩ :=
      (C8_remove_semantics
        (⟨[5, 7, 9], 3, [5, 7, 9], [5, 7, 9], [5, 7, 9]⟩ : BookList Nat)
        1 (by decide)).2 (by decide)
    exact ⟨L', heq, by rw [hvec]; decide⟩

/-- C9: offset validation happens before duplicate suppression — with a
book already present, an offset strictly greater than `size()` still
throws `InvalidOffsetException` (state unchanged), while the silent
duplicate no-op applies exactly to the offsets in `[0, size()]`. -/
theorem C9_offset_check_before_duplicate [DecidableEq α] (L : BookList α)
    (book : α) (offset : Nat)
    (hc : L.containers_are_consistent = true)
    (hmem : book ∈ L.books_vector_) :
    (L.books_vector_.length < offset →
      L.insert book offset = .err .invalidOffset L) ∧
    (offset ≤ L.books_vector_.length →
      L.insert book offset = .ok () L) := by
  constructor
  · intro ho
    exact insert_invalidOffset hc ho
  · intro ho
    exact insert_duplicate hc hmem ho

/-- Witness for C9 on `[5]`: the duplicate `5` at offset `2` is an
invalid-offset fault, while at the valid offset `1` it is a silent
no-op. -/
theorem C9_witness :
    ((⟨[5], 1, [5], [5], [5]⟩ : BookList Nat).insert 5 2 =
      .err .invalidOffset ⟨[5], 1, [5], [5], [5]⟩) ∧
    ((⟨[5], 1, [5], [5], [5]⟩ : BookList Nat).insert 5 1 =
      .ok () ⟨[5], 1, [5], [5], [5]⟩) :=
  ⟨(C9_offset_check_before_duplicate _ 5 2 (by decide) (by decide)).1
      (by decide),
   (C9_offset_check_before_duplicate _ 5 1 (by decide) (by decide)).2
      (by decide)⟩

/-- C10: duplicate suppression happens before the capacity check — with
the fixed array full and the book already present, `insert` at a valid
offset returns as a silent no-op rather than throwing
`CapacityExceededException`. -/
theorem C10_duplicate_check_before_capacity [DecidableEq α]
    (L : BookList α) (book : α) (offset : Nat)
    (hc : L.containers_are_consistent = true)
    (_hfull : L.books_array_size_ = L.books_array_.length)
    (hmem : book ∈ L.books_vector_)
    (hoff : offset ≤ L.books_vector_.length) :
    L.insert book offset = .ok () L :=
  insert_duplicate hc hmem hoff

/-- Witness for C10: the one-slot list `[5]` is full, yet inserting the
duplicate `5` at offset `0` is a silent no-op, not a capacity fault. -/
theorem C10_witness :
    (⟨[5], 1, [5], [5], [5]⟩ : BookList Nat).insert 5 0 =
      .ok () ⟨[5], 1, [5], [5], [5]⟩ :=
  C10_duplicate_check_before_capacity _ 5 0 (by decide) (by decide)
    (by decide) (by decide)
